import Mathlib

/-!
Verification of the go_cat profile-cache service.

The Go program (src/wiki.go and its net/http variant) serves per-user
profile records stored as Redis hashes under keys `"user:" ++ sub`.
We embed the handlers as pure Lean functions over an explicit store
state.  External collaborators are modelled by their documented
contracts: the Redis client by the documented semantics of
HGETALL / HMSET / HINCRBY / KEYS (transport failures are explicit
boolean parameters), and the identity-provider HTTP client by an
oracle `provider : String → Option UserData`.  Machine integers are
modelled as unbounded `Int` (the int64 range plays no role in any
claim considered here).
-/

namespace GoCat

/-! ### Decimal formatting and parsing

Go writes the integer `score` into the hash as its decimal string
(go-redis serialises an `int` argument with `strconv`), reads it back
with `strconv.Atoi`, and Redis's HINCRBY parses the stored field with
its `string2ll` routine (optional `-` sign, no leading zeroes, digits
only).  We model both parsers and the decimal formatter explicitly. -/

/-- The decimal digit character for `n % 10`-sized values (Go `'0' + d`). -/
def digitChar (n : Nat) : Char :=
  if n = 0 then '0' else if n = 1 then '1' else if n = 2 then '2'
  else if n = 3 then '3' else if n = 4 then '4' else if n = 5 then '5'
  else if n = 6 then '6' else if n = 7 then '7' else if n = 8 then '8' else '9'

/-- Fuel-driven most-significant-first decimal digit expansion (models
`strconv.Itoa` for naturals).  `fuel` bounds the recursion; `n + 1` is
always enough fuel for input `n`. -/
def natToDigitsAux : Nat → Nat → List Char → List Char
  | 0, _, acc => acc
  | fuel + 1, n, acc =>
    if n < 10 then digitChar n :: acc
    else natToDigitsAux fuel (n / 10) (digitChar (n % 10) :: acc)

/-- Decimal string of a natural number (models `strconv.Itoa` on
nonnegative values). -/
def natToString (n : Nat) : String :=
  ⟨natToDigitsAux (n + 1) n []⟩

/-- Decimal string of an integer, as Go's `strconv` formats an `int`. -/
def intToString (i : Int) : String :=
  if i < 0 then "-" ++ natToString i.natAbs else natToString i.natAbs

/-- Accumulating digit-string parser: consumes the list, failing on the
first non-digit character (base-10 positional accumulation). -/
def parseDigitsAux : List Char → Nat → Option Nat
  | [], acc => some acc
  | c :: rest, acc =>
    if '0' ≤ c ∧ c ≤ '9' then parseDigitsAux rest (acc * 10 + (c.toNat - 48))
    else none

/-- Parse a non-empty all-digit string. -/
def parseDigits : List Char → Option Nat
  | [] => none
  | c :: rest => parseDigitsAux (c :: rest) 0

/-- Model of Go's `strconv.Atoi` (without the int64 range check):
optional `+`/`-` sign followed by one or more decimal digits. -/
def atoi (s : String) : Option Int :=
  match s.data with
  | [] => none
  | c :: rest =>
    if c = '+' then (parseDigits rest).map (fun n => (n : Int))
    else if c = '-' then (parseDigits rest).map (fun n => -(n : Int))
    else (parseDigits (c :: rest)).map (fun n => (n : Int))

/-- Parse digits requiring a nonzero leading digit (Redis `string2ll`
rejects leading zeroes). -/
def parseNoLeadZero : List Char → Option Nat
  | [] => none
  | c :: rest =>
    if '1' ≤ c ∧ c ≤ '9' then parseDigitsAux rest (c.toNat - 48)
    else none

/-- Modelled from Redis's documented integer parsing (`string2ll`, used
by HINCRBY, without the int64 range check): `"0"` alone, or an optional
`-` sign followed by digits with no leading zero. -/
def redisParseInt (s : String) : Option Int :=
  match s.data with
  | [] => none
  | c :: rest =>
    if c = '-' then (parseNoLeadZero rest).map (fun n => -(n : Int))
    else if c = '0' ∧ rest = [] then some 0
    else (parseNoLeadZero (c :: rest)).map (fun n => (n : Int))

/-! ### The key-value store

A Redis hash is an association list of fields; the keyspace is an
association list of hashes.  List order models the (unspecified)
enumeration order that `KEYS` returns. -/

/-- A hash record: field name to string value. -/
abbrev HashRecord : Type := List (String × String)

/-- The Redis keyspace: key to hash record, in enumeration order. -/
abbrev Store : Type := List (String × HashRecord)

/-- First-match association-list lookup. -/
def alookup {β : Type} (k : String) : List (String × β) → Option β
  | [] => none
  | (k', v) :: rest => if k' = k then some v else alookup k rest

/-- Modelled from Redis HGETALL: all fields of a key, the empty map for
a missing key. -/
def hgetall (st : Store) (key : String) : HashRecord :=
  (alookup key st).getD []

/-- Set one field of a hash, overwriting in place or appending. -/
def setField : HashRecord → String → String → HashRecord
  | [], f, v => [(f, v)]
  | (g, w) :: rest, f, v =>
    if g = f then (f, v) :: rest else (g, w) :: setField rest f v

/-- Set several fields of a hash in order. -/
def setFields (r : HashRecord) (upd : List (String × String)) : HashRecord :=
  upd.foldl (fun acc fv => setField acc fv.1 fv.2) r

/-- Modelled from Redis HMSET: overwrite the given fields of the key's
hash, creating the key if absent; unspecified fields are kept. -/
def storeSet : Store → String → List (String × String) → Store
  | [], key, upd => [(key, setFields [] upd)]
  | (k, r) :: rest, key, upd =>
    if k = key then (k, setFields r upd) :: rest
    else (k, r) :: storeSet rest key upd

/-- Modelled from Redis HINCRBY: atomically add `delta` to an integer
field, creating it at `delta` if absent; fail (leaving the store
unchanged) if the current value is not an integer by `redisParseInt`. -/
def hincrby (st : Store) (key field : String) (delta : Int) :
    Except Unit (Int × Store) :=
  match alookup field (hgetall st key) with
  | none =>
    .ok (delta, storeSet st key [(field, intToString delta)])
  | some s =>
    match redisParseInt s with
    | none => .error ()
    | some old =>
      let v := old + delta
      .ok (v, storeSet st key [(field, intToString v)])

/-- Go `strings.HasPrefix`, on the characters of the strings. -/
def strHasPre (s pre : String) : Bool :=
  pre.data.isPrefixOf s.data

/-- Modelled from Redis KEYS "user:*": every key starting with
`"user:"`, in enumeration order. -/
def userKeys (st : Store) : List String :=
  (st.map Prod.fst).filter (fun k => strHasPre k "user:")

/-- Go `strings.TrimPrefix(key, "user:")` (drops the five characters
of the matched ASCII marker). -/
def subOfKey (key : String) : String :=
  if strHasPre key "user:" then ⟨key.data.drop 5⟩ else key

/-! ### The data model and the embedded handlers

Transport failures of the Redis client are explicit parameters:
`readAvail key` tells whether an HGETALL round trip on `key` succeeds,
`writeOk` / `incrOk` / `keysOk` whether the HMSET / HINCRBY / KEYS
round trip of the current request succeeds.  The identity provider is
the oracle `provider`; each handler records in `providerCalls` how
often it consulted the provider. -/

/-- The `UserData` struct of src/wiki.go. -/
structure UserData where
  Sub : String
  Image : String
  Nickname : String
  Name : String
  Score : Int
deriving DecidableEq, Repr

/-- Outcome of a handler: the JSON body written on success, or the
error response the handler produced. -/
inductive HandlerResult (α : Type) where
  | ok (body : α)
  | badRequest (msg : String)
  | serverError (msg : String)
deriving DecidableEq, Repr

/-- `getUserDataFromRedis` of src/wiki.go: HGETALL the key
`"user:" ++ sub`, fail if the `score` field is absent or does not
`strconv.Atoi`-parse, otherwise assemble the `UserData` (absent fields
read as the empty string, Go's map zero value). -/
inductive RedisErr where
  | transportFail
  | scoreMissing
  | scoreNotInteger
deriving DecidableEq, Repr

def getUserDataFromRedis (readAvail : String → Bool) (st : Store)
    (sub : String) : Except RedisErr UserData :=
  let redisKey := "user:" ++ sub
  if ¬ readAvail redisKey then .error .transportFail
  else
    let vals := hgetall st redisKey
    match alookup "score" vals with
    | none => .error .scoreMissing
    | some scoreStr =>
      match atoi scoreStr with
      | none => .error .scoreNotInteger
      | some score =>
        .ok ⟨(alookup "sub" vals).getD "", (alookup "image" vals).getD "",
             (alookup "nickname" vals).getD "", (alookup "name" vals).getD "",
             score⟩

/-- The field map that `getUserData` writes back with HMSET, in source
order (`sub`, `image`, `nickname`, `name`, `score`). -/
def profileFields (u : UserData) : List (String × String) :=
  [("sub", u.Sub), ("image", u.Image), ("nickname", u.Nickname),
   ("name", u.Name), ("score", intToString u.Score)]

/-- Result of one `/user/:sub` request: HTTP outcome, resulting store,
and number of identity-provider calls made. -/
structure GetUserOutcome where
  result : HandlerResult UserData
  store : Store
  providerCalls : Nat
deriving DecidableEq, Repr

/-- The `getUserData` handler of src/wiki.go (`/user/:sub`): reject an
empty subject; try the store; on any store-read error call the
provider (`fetchUserDataFromAPI`); on provider success HMSET the
fetched profile back and return it, surfacing a failed write as
"Failed to save user data"; on provider failure return
"Failed to fetch user data". -/
def getUserData (readAvail : String → Bool) (writeOk : Bool)
    (provider : String → Option UserData) (st : Store) (sub : String) :
    GetUserOutcome :=
  if sub = "" then ⟨.badRequest "Sub parameter is required", st, 0⟩
  else
    match getUserDataFromRedis readAvail st sub with
    | .ok userData => ⟨.ok userData, st, 0⟩
    | .error _ =>
      match provider sub with
      | none => ⟨.serverError "Failed to fetch user data", st, 1⟩
      | some apiUserData =>
        if writeOk then
          ⟨.ok apiUserData,
           storeSet st ("user:" ++ sub) (profileFields apiUserData), 1⟩
        else ⟨.serverError "Failed to save user data", st, 1⟩

/-- The `getUsers` handler of src/wiki.go (`/users`): enumerate
`user:*` keys, read each, skip keys whose read fails, return the rest. -/
def getUsers (keysOk : Bool) (readAvail : String → Bool) (st : Store) :
    HandlerResult (List UserData) :=
  if ¬ keysOk then .serverError "Server error"
  else
    .ok ((userKeys st).filterMap fun key =>
      (getUserDataFromRedis readAvail st (subOfKey key)).toOption)

/-- The `UserScore` projection built by the `getTopScores` handler. -/
structure UserScore where
  sub : String
  score : Int
  nickname : String
  image : String
deriving DecidableEq, Repr

/-- The comparator passed to `sort.Slice` in `getTopScores`:
`topScores[i].Score > topScores[j].Score`. -/
def scoreGT (x y : UserScore) : Bool :=
  decide (y.score < x.score)

/-- The `UserScore` list `getTopScores` accumulates before sorting:
every enumerated `user:*` key whose read succeeds, in enumeration
order. -/
def collectScores (readAvail : String → Bool) (st : Store) :
    List UserScore :=
  (userKeys st).filterMap fun key =>
    let sub := subOfKey key
    match getUserDataFromRedis readAvail st sub with
    | .ok u => some ⟨sub, u.Score, u.Nickname, u.Image⟩
    | .error _ => none

/-- The `getTopScores` handler of src/wiki.go (`/top-scores`),
parametrised by the sorting function that models `sort.Slice` with the
descending-score comparator: enumerate, read, skip failures, sort
descending by score, truncate to 10. -/
def getTopScoresWith (sortFn : List UserScore → List UserScore)
    (keysOk : Bool) (readAvail : String → Bool) (st : Store) :
    HandlerResult (List UserScore) :=
  if ¬ keysOk then .serverError "Server error"
  else
    let topScores := sortFn (collectScores readAvail st)
    .ok (if topScores.length > 10 then topScores.take 10 else topScores)

/-- Result of one `/user/incr` request. -/
structure IncrOutcome where
  result : HandlerResult (Int × UserData)
  store : Store
  providerCalls : Nat
deriving DecidableEq, Repr

/-- The `incrementScore` handler of src/wiki.go (`/user/incr`): reject
an empty subject; HINCRBY `score` by 1 (500 "Server error" on failure);
then re-read the profile from the store only (500 "Server error" if
that read fails).  The identity provider is never consulted. -/
def incrementScore (incrOk : Bool) (readAvail : String → Bool)
    (st : Store) (sub : String) : IncrOutcome :=
  if sub = "" then ⟨.badRequest "Sub parameter is required", st, 0⟩
  else if ¬ incrOk then ⟨.serverError "Server error", st, 0⟩
  else
    match hincrby st ("user:" ++ sub) "score" 1 with
    | .error _ => ⟨.serverError "Server error", st, 0⟩
    | .ok (newScore, st') =>
      match getUserDataFromRedis readAvail st' sub with
      | .error _ => ⟨.serverError "Server error", st', 0⟩
      | .ok userData => ⟨.ok (newScore, userData), st', 0⟩

/-- A fault-free transport schedule for reads. -/
def allReadsOk : String → Bool := fun _ => true

/-- The outcome of the `N`-th of `n+1` sequential fault-free
`incrementScore` calls on `sub` (argument `n` is `N - 1`). -/
def incrNTimes (sub : String) : Nat → Store → IncrOutcome
  | 0, st => incrementScore true allReadsOk st sub
  | n + 1, st =>
    incrNTimes sub n (incrementScore true allReadsOk st sub).store

/-- Repeat the `/user/:sub` handler `n` times, threading the store and
summing the provider calls. -/
def getUserDataRepeat (readAvail : String → Bool) (writeOk : Bool)
    (provider : String → Option UserData) (sub : String) :
    Nat → Store → Store × Nat
  | 0, st => (st, 0)
  | n + 1, st =>
    let o := getUserData readAvail writeOk provider st sub
    let rest := getUserDataRepeat readAvail writeOk provider sub n o.store
    (rest.1, o.providerCalls + rest.2)

/-! ### The `sort.Slice` model

`getTopScores` sorts with Go's `sort.Slice`, which is documented as
*not* guaranteed to be stable.  To settle the tie-order claim we
transcribe the sorting algorithm `sort.Slice` dispatches to in the
module's Go toolchain (Go 1.22: `pdqsort_func` of `sort/zsortfunc.go`,
entered with `limit = bits.Len(uint(length))`).  Loops are expressed
with explicit fuel; every helper mirrors its Go counterpart
statement by statement.  `lt` is the user comparator on elements
(`less(i, j)` reads the elements at `i` and `j`). -/

/-- Index swap on the slice contents (the slice is modelled as the
list of its elements); out-of-range indices, which the algorithm never
produces, leave it unchanged. -/
def aswap {α : Type} (l : List α) (i j : Nat) : List α :=
  match l.get? i, l.get? j with
  | some x, some y => (l.set i y).set j x
  | _, _ => l

/-- `data.Less(i, j)` on the slice; false out of range. -/
def lessAt {α : Type} (lt : α → α → Bool) (l : List α) (i j : Nat) :
    Bool :=
  match l.get? i, l.get? j with
  | some x, some y => lt x y
  | _, _ => false

/-- Inner loop of `insertionSort_func`: shift the element at `j + 1`
left while it is below its predecessor and above position `a`. -/
def insertInner {α : Type} (lt : α → α → Bool) (a : Nat) :
    List α → Nat → List α
  | arr, 0 => arr
  | arr, j + 1 =>
    if a ≤ j ∧ lessAt lt arr (j + 1) j then
      insertInner lt a (aswap arr (j + 1) j) j
    else arr

/-- Outer loop of `insertionSort_func`; `fuel` counts the remaining
iterations of `i`. -/
def insertOuter {α : Type} (lt : α → α → Bool) (a : Nat) :
    Nat → List α → Nat → List α
  | 0, arr, _ => arr
  | fuel + 1, arr, i => insertOuter lt a fuel (insertInner lt a arr i) (i + 1)

/-- `insertionSort_func(data, a, b)`: insertion sort of `data[a:b]`. -/
def insertionSortIn {α : Type} (lt : α → α → Bool) (arr : List α)
    (a b : Nat) : List α :=
  insertOuter lt a (b - (a + 1)) arr (a + 1)

/-- `siftDown_func(data, lo=root, hi, first)`; `fuel` bounds the walk
down the heap. -/
def siftDownIn {α : Type} (lt : α → α → Bool) (first : Nat) :
    Nat → List α → Nat → Nat → List α
  | 0, arr, _, _ => arr
  | fuel + 1, arr, root, hi =>
    let child := 2 * root + 1
    if child ≥ hi then arr
    else
      let child :=
        if child + 1 < hi ∧ lessAt lt arr (first + child) (first + child + 1)
        then child + 1 else child
      if ¬ lessAt lt arr (first + root) (first + child) then arr
      else siftDownIn lt first fuel (aswap arr (first + root) (first + child))
        child hi

/-- Heap-building loop of `heapSort_func`, from `i` down to `0`. -/
def heapBuild {α : Type} (lt : α → α → Bool) (first hi : Nat) :
    Nat → List α → List α
  | 0, arr => siftDownIn lt first (hi + 1) arr 0 hi
  | i + 1, arr =>
    heapBuild lt first hi i (siftDownIn lt first (hi + 1) arr (i + 1) hi)

/-- Pop loop of `heapSort_func`, from `i` down to `0`. -/
def heapPop {α : Type} (lt : α → α → Bool) (first : Nat) :
    Nat → List α → List α
  | 0, arr => siftDownIn lt first 1 (aswap arr first first) 0 0
  | i + 1, arr =>
    heapPop lt first i
      (siftDownIn lt first (i + 2) (aswap arr first (first + (i + 1))) 0 (i + 1))

/-- `heapSort_func(data, a, b)`. -/
def heapSortIn {α : Type} (lt : α → α → Bool) (arr : List α)
    (a b : Nat) : List α :=
  let first := a
  let hi := b - a
  let arr := heapBuild lt first hi ((hi - 1) / 2) arr
  if hi = 0 then arr else heapPop lt first (hi - 1) arr

/-- Loop of `reverseRange_func`. -/
def revGo {α : Type} : Nat → List α → Nat → Nat → List α
  | 0, arr, _, _ => arr
  | fuel + 1, arr, i, j =>
    if i < j then revGo fuel (aswap arr i j) (i + 1) (j - 1) else arr

/-- `reverseRange_func(data, a, b)`. -/
def reverseRangeIn {α : Type} (arr : List α) (a b : Nat) : List α :=
  revGo (b - a) arr a (b - 1)

/-- `for i <= j && data.Less(i, a) { i++ }` scan of `partition_func`. -/
def advanceI {α : Type} (lt : α → α → Bool) (arr : List α)
    (aIdx j : Nat) : Nat → Nat → Nat
  | 0, i => i
  | fuel + 1, i =>
    if i ≤ j ∧ lessAt lt arr i aIdx then advanceI lt arr aIdx j fuel (i + 1)
    else i

/-- `for i <= j && !data.Less(j, a) { j-- }` scan of `partition_func`. -/
def retreatJ {α : Type} (lt : α → α → Bool) (arr : List α)
    (aIdx i : Nat) : Nat → Nat → Nat
  | 0, j => j
  | fuel + 1, j =>
    if i ≤ j ∧ ¬ lessAt lt arr j aIdx then retreatJ lt arr aIdx i fuel (j - 1)
    else j

/-- Steady-state loop of `partition_func` after the first crossing:
scan, swap, repeat until the pointers cross, returning the final `j`. -/
def partitionGo {α : Type} (lt : α → α → Bool) (aIdx b : Nat) :
    Nat → List α → Nat → Nat → List α × Nat
  | 0, arr, _, j => (arr, j)
  | fuel + 1, arr, i, j =>
    let i := advanceI lt arr aIdx j (b + 1) i
    let j := retreatJ lt arr aIdx i (b + 1) j
    if i > j then (arr, j)
    else partitionGo lt aIdx b fuel (aswap arr i j) (i + 1) (j - 1)

/-- `partition_func(data, a, b, pivot)`: returns the permuted array,
the new pivot position, and whether the range was already
partitioned. -/
def partitionIn {α : Type} (lt : α → α → Bool) (arr0 : List α)
    (a b pivot : Nat) : List α × Nat × Bool :=
  let arr := aswap arr0 a pivot
  let i := advanceI lt arr a (b - 1) (b + 1) (a + 1)
  let j := retreatJ lt arr a i (b + 1) (b - 1)
  if i > j then (aswap arr j a, j, true)
  else
    let arr := aswap arr i j
    let (arr, jf) := partitionGo lt a b (b - a + 1) arr (i + 1) (j - 1)
    (aswap arr jf a, jf, false)

/-- `for i <= j && !data.Less(a, i) { i++ }` scan of
`partitionEqual_func`. -/
def advanceEq {α : Type} (lt : α → α → Bool) (arr : List α)
    (aIdx j : Nat) : Nat → Nat → Nat
  | 0, i => i
  | fuel + 1, i =>
    if i ≤ j ∧ ¬ lessAt lt arr aIdx i then advanceEq lt arr aIdx j fuel (i + 1)
    else i

/-- `for i <= j && data.Less(a, j) { j-- }` scan of
`partitionEqual_func`. -/
def retreatEq {α : Type} (lt : α → α → Bool) (arr : List α)
    (aIdx i : Nat) : Nat → Nat → Nat
  | 0, j => j
  | fuel + 1, j =>
    if i ≤ j ∧ lessAt lt arr aIdx j then retreatEq lt arr aIdx i fuel (j - 1)
    else j

/-- Loop of `partitionEqual_func`, returning the final `i`. -/
def partitionEqGo {α : Type} (lt : α → α → Bool) (aIdx b : Nat) :
    Nat → List α → Nat → Nat → List α × Nat
  | 0, arr, i, _ => (arr, i)
  | fuel + 1, arr, i, j =>
    let i := advanceEq lt arr aIdx j (b + 1) i
    let j := retreatEq lt arr aIdx i (b + 1) j
    if i > j then (arr, i)
    else partitionEqGo lt aIdx b fuel (aswap arr i j) (i + 1) (j - 1)

/-- `partitionEqual_func(data, a, b, pivot)`. -/
def partitionEqualIn {α : Type} (lt : α → α → Bool) (arr0 : List α)
    (a b pivot : Nat) : List α × Nat :=
  let arr := aswap arr0 a pivot
  partitionEqGo lt a b (b - a + 1) arr (a + 1) (b - 1)

/-- `for i < b && !data.Less(i, i-1) { i++ }` scan of the
partial-insertion-sort check. -/
def findInv {α : Type} (lt : α → α → Bool) (arr : List α) (b : Nat) :
    Nat → Nat → Nat
  | 0, i => i
  | fuel + 1, i =>
    if i < b ∧ ¬ lessAt lt arr i (i - 1) then findInv lt arr b fuel (i + 1)
    else i

/-- Left shift of `partialInsertionSort_func`
(`for j := i - 1; j >= 1; j--`). -/
def shiftLeft {α : Type} (lt : α → α → Bool) : List α → Nat → List α
  | arr, 0 => arr
  | arr, j + 1 =>
    if lessAt lt arr (j + 1) j then shiftLeft lt (aswap arr (j + 1) j) j
    else arr

/-- Right shift of `partialInsertionSort_func`
(`for j := i + 1; j < b; j++`). -/
def shiftRight {α : Type} (lt : α → α → Bool) (b : Nat) :
    Nat → List α → Nat → List α
  | 0, arr, _ => arr
  | fuel + 1, arr, j =>
    if j < b ∧ lessAt lt arr j (j - 1) then
      shiftRight lt b fuel (aswap arr j (j - 1)) (j + 1)
    else arr

/-- Outer `maxSteps` loop of `partialInsertionSort_func`; returns the
array and whether the range ended up sorted. -/
def earlyGo {α : Type} (lt : α → α → Bool) (a b : Nat) :
    Nat → List α → Nat → List α × Bool
  | 0, arr, _ => (arr, false)
  | steps + 1, arr, i =>
    let i := findInv lt arr b (b + 1) i
    if i = b then (arr, true)
    else if b - a < 50 then (arr, false)
    else
      let arr := aswap arr i (i - 1)
      let arr := if i - a ≥ 2 then shiftLeft lt arr (i - 1) else arr
      let arr := if b - i ≥ 2 then shiftRight lt b (b + 1) arr (i + 1) else arr
      earlyGo lt a b steps arr i

/-- `partialInsertionSort_func(data, a, b)` (`maxSteps = 5`). -/
def earlyInsertionSortIn {α : Type} (lt : α → α → Bool) (arr : List α)
    (a b : Nat) : List α × Bool :=
  earlyGo lt a b 5 arr (a + 1)

/-- One step of the `xorshift` generator seeded by the range length
(`*r ^= *r << 13; *r ^= *r >> 7; *r ^= *r << 17` on `uint64`). -/
def xorshiftNext (r : Nat) : Nat :=
  let m := 2 ^ 64
  let r := (r ^^^ (r <<< 13)) % m
  let r := r ^^^ (r >>> 7)
  (r ^^^ (r <<< 17)) % m

/-- Kernel-reducible bit-length recursion (`Len(n) = Len(n/2) + 1` for
`n ≥ 1`). -/
def bitsLenAux : Nat → Nat → Nat
  | 0, _ => 0
  | fuel + 1, n => if n = 0 then 0 else bitsLenAux fuel (n / 2) + 1

/-- Go `bits.Len`: the number of bits required to represent `n`. -/
def bitsLen (n : Nat) : Nat := bitsLenAux (n + 1) n

/-- `nextPowerOfTwo(length) = 1 << bits.Len(uint(length))`. -/
def nextPow2 (length : Nat) : Nat := 2 ^ bitsLen length

/-- `breakPatterns_func(data, a, b)`: three pseudo-random swaps around
the middle of the range when it has at least 8 elements. -/
def breakPatternsIn {α : Type} (arr : List α) (a b : Nat) : List α :=
  let length := b - a
  if length ≥ 8 then
    let modulus := nextPow2 length
    let idx := a + (length / 4) * 2 - 1
    let r1 := xorshiftNext (length % 2 ^ 64)
    let o1 := let t := r1 &&& (modulus - 1); if t ≥ length then t - length else t
    let arr := aswap arr (idx - 1) (a + o1)
    let r2 := xorshiftNext r1
    let o2 := let t := r2 &&& (modulus - 1); if t ≥ length then t - length else t
    let arr := aswap arr idx (a + o2)
    let r3 := xorshiftNext r2
    let o3 := let t := r3 &&& (modulus - 1); if t ≥ length then t - length else t
    aswap arr (idx + 1) (a + o3)
  else arr

/-- The sortedness hints of `choosePivot_func`. -/
inductive SortedHint where
  | increasing
  | decreasing
  | unknown
deriving DecidableEq, Repr

/-- `order2_func`: order two indices by the data they point to,
counting swaps. -/
def order2 {α : Type} (lt : α → α → Bool) (arr : List α)
    (a b swaps : Nat) : Nat × Nat × Nat :=
  if lessAt lt arr b a then (b, a, swaps + 1) else (a, b, swaps)

/-- `median_func`: index of the median of three, counting swaps. -/
def medianIdx {α : Type} (lt : α → α → Bool) (arr : List α)
    (a b c swaps : Nat) : Nat × Nat :=
  match order2 lt arr a b swaps with
  | (a, b, s) =>
    match order2 lt arr b c s with
    | (b, _, s) =>
      match order2 lt arr a b s with
      | (_, b, s) => (b, s)

/-- `medianAdjacent_func`: median of `data[a-1], data[a], data[a+1]`. -/
def medianAdj {α : Type} (lt : α → α → Bool) (arr : List α)
    (a swaps : Nat) : Nat × Nat :=
  medianIdx lt arr (a - 1) a (a + 1) swaps

/-- Map the swap count of `choosePivot_func` to a hint
(`maxSwaps = 12`). -/
def hintOf (swaps : Nat) : SortedHint :=
  if swaps = 0 then .increasing
  else if swaps = 12 then .decreasing
  else .unknown

/-- `choosePivot_func(data, a, b)` (`shortestNinther = 50`). -/
def choosePivotIn {α : Type} (lt : α → α → Bool) (arr : List α)
    (a b : Nat) : Nat × SortedHint :=
  let l := b - a
  let i := a + l / 4 * 1
  let j := a + l / 4 * 2
  let k := a + l / 4 * 3
  if l ≥ 8 then
    if l ≥ 50 then
      let (i, s) := medianAdj lt arr i 0
      let (j, s) := medianAdj lt arr j s
      let (k, s) := medianAdj lt arr k s
      let (j, s) := medianIdx lt arr i j k s
      (j, hintOf s)
    else
      let (j, s) := medianIdx lt arr i j k 0
      (j, hintOf s)
  else (j, .increasing)

/-- `pdqsort_func(data, a, b, limit)` with explicit fuel (each loop
iteration or recursive call strictly shrinks the range, so fuel
`length + 2` always suffices).  `wasBalanced`/`wasPartitioned` thread
the loop state; fresh recursive calls restart them at `true`
(`maxInsertion = 12`). -/
def pdqsortGo {α : Type} (lt : α → α → Bool) :
    Nat → List α → Nat → Nat → Nat → Bool → Bool → List α
  | 0, arr, _, _, _, _, _ => arr
  | fuel + 1, arr, a, b, limit, wasBalanced, wasPartitioned =>
    let length := b - a
    if length ≤ 12 then insertionSortIn lt arr a b
    else if limit = 0 then heapSortIn lt arr a b
    else
      let (arr, limit) :=
        if ¬ wasBalanced then (breakPatternsIn arr a b, limit - 1)
        else (arr, limit)
      let (pivot, hint) := choosePivotIn lt arr a b
      let (arr, pivot, hint) :=
        if hint = SortedHint.decreasing then
          (reverseRangeIn arr a b, (b - 1) - (pivot - a), SortedHint.increasing)
        else (arr, pivot, hint)
      let (arr, sortedNow) :=
        if wasBalanced ∧ wasPartitioned ∧ hint = SortedHint.increasing then
          earlyInsertionSortIn lt arr a b
        else (arr, false)
      if sortedNow then arr
      else if a > 0 ∧ ¬ lessAt lt arr (a - 1) pivot then
        let (arr, mid) := partitionEqualIn lt arr a b pivot
        pdqsortGo lt fuel arr mid b limit wasBalanced wasPartitioned
      else
        let (arr, mid, alreadyPartitioned) := partitionIn lt arr a b pivot
        let wasPartitioned := alreadyPartitioned
        let leftLen := mid - a
        let rightLen := b - mid
        let balanceThreshold := length / 8
        let wasBalanced := min leftLen rightLen ≥ balanceThreshold
        if leftLen < rightLen then
          let arr := pdqsortGo lt fuel arr a mid limit true true
          pdqsortGo lt fuel arr (mid + 1) b limit wasBalanced wasPartitioned
        else
          let arr := pdqsortGo lt fuel arr (mid + 1) b limit true true
          pdqsortGo lt fuel arr a mid limit wasBalanced wasPartitioned

/-- Model of Go 1.22 `sort.Slice` on a list:
`pdqsort_func(data, 0, length, bits.Len(uint(length)))`. -/
def goSortSlice {α : Type} (lt : α → α → Bool) (l : List α) : List α :=
  pdqsortGo lt (l.length + 2) l 0 l.length (bitsLen l.length) true true

/-- The concrete `getTopScores` handler: `getTopScoresWith` at the
`sort.Slice` model and the source's descending comparator. -/
def getTopScores (keysOk : Bool) (readAvail : String → Bool)
    (st : Store) : HandlerResult (List UserScore) :=
  getTopScoresWith (goSortSlice scoreGT) keysOk readAvail st

/-! ### Concrete instances used by counterexamples and witnesses -/

/-- A transport schedule on which every read fails. -/
def noReads : String → Bool := fun _ => false

/-- A provider that fails on every subject. -/
def provNone : String → Option UserData := fun _ => none

/-- A provider profile used in witnesses. -/
def uW1 : UserData := ⟨"abc", "img", "nick", "name", 5⟩

/-- A provider answering `uW1` for every subject. -/
def provW1 : String → Option UserData := fun _ => some uW1

/-- A populated, well-formed store record for the cache-hit claim. -/
def stW2 : Store := [("user:bob", [("sub", "bob"), ("score", "4")])]

/-- A store whose record for `abc` exists and parses: the provider is
not needed by the data, only reachability decides. -/
def stC4 : Store := [("user:abc", [("score", "7")])]

/-- The provider consulted in the transport-failure counterexample. -/
def provC4 : String → Option UserData := fun _ => some ⟨"abc", "", "", "", 7⟩

/-- A store holding one `user:*` record whose `score` does not parse. -/
def stBadScore : Store := [("user:bad", [("score", "x")])]

/-- A provider returning a profile whose `Sub` differs from the
requested subject. -/
def provMismatch : String → Option UserData :=
  fun _ => some ⟨"other", "", "", "", 3⟩

/-- A stable reference sort satisfying `sort.Slice`'s documented
contract for the descending-score comparator. -/
def msort (l : List UserScore) : List UserScore :=
  l.mergeSort (fun x y => decide (y.score ≤ x.score))

/-- Thirteen single-field records whose enumeration order and score
ties exercise the unstable partition step of the `sort.Slice` model. -/
def stC5 : Store :=
  [("user:a", [("score", "5")]), ("user:b", [("score", "9")]),
   ("user:c", [("score", "8")]), ("user:d", [("score", "7")]),
   ("user:e", [("score", "6")]), ("user:f", [("score", "9")]),
   ("user:g", [("score", "5")]), ("user:h", [("score", "4")]),
   ("user:i", [("score", "2")]), ("user:j", [("score", "3")]),
   ("user:k", [("score", "1")]), ("user:l", [("score", "2")]),
   ("user:m", [("score", "0")])]

/-- The `UserScore` entry read from `stC5` for subject `s` with score
`n`. -/
def entC5 (s : String) (n : Int) : UserScore := ⟨s, n, "", ""⟩

/-- The entries of `stC5` in enumeration order (the sort's input). -/
def inC5 : List UserScore :=
  [entC5 "a" 5, entC5 "b" 9, entC5 "c" 8, entC5 "d" 7, entC5 "e" 6,
   entC5 "f" 9, entC5 "g" 5, entC5 "h" 4, entC5 "i" 2, entC5 "j" 3,
   entC5 "k" 1, entC5 "l" 2, entC5 "m" 0]

/-- The state of `inC5` after the `partition_func` step of the
`sort.Slice` model (pivot settled at index 5). -/
def midC5 : List UserScore :=
  [entC5 "f" 9, entC5 "b" 9, entC5 "c" 8, entC5 "d" 7, entC5 "e" 6,
   entC5 "g" 5, entC5 "a" 5, entC5 "h" 4, entC5 "i" 2, entC5 "j" 3,
   entC5 "k" 1, entC5 "l" 2, entC5 "m" 0]

/-- The fully sorted state of `inC5` under the `sort.Slice` model. -/
def outC5 : List UserScore :=
  [entC5 "f" 9, entC5 "b" 9, entC5 "c" 8, entC5 "d" 7, entC5 "e" 6,
   entC5 "g" 5, entC5 "a" 5, entC5 "h" 4, entC5 "j" 3, entC5 "i" 2,
   entC5 "l" 2, entC5 "k" 1, entC5 "m" 0]

/-! ### Round-trip lemmas for the decimal representation -/

theorem natToDigitsAux_succ (fuel n : Nat) (acc : List Char) :
    natToDigitsAux (fuel + 1) n acc =
      if n < 10 then digitChar n :: acc
      else natToDigitsAux fuel (n / 10) (digitChar (n % 10) :: acc) := rfl

theorem natToDigitsAux_fuelIrrel :
    ∀ f₁ f₂ n acc, n < f₁ → n < f₂ →
      natToDigitsAux f₁ n acc = natToDigitsAux f₂ n acc := by
  intro f₁
  induction f₁ with
  | zero => intro f₂ n acc h₁; omega
  | succ f ih =>
    intro f₂ n acc h₁ h₂
    match f₂, h₂ with
    | g + 1, _ =>
      rw [natToDigitsAux_succ, natToDigitsAux_succ]
      by_cases hn : n < 10
      · simp [hn]
      · simp only [hn, if_false]
        have hd : n / 10 < n := Nat.div_lt_self (by omega) (by omega)
        exact ih g (n / 10) _ (by omega) (by omega)

theorem natToDigitsAux_append :
    ∀ fuel n acc, natToDigitsAux fuel n acc = natToDigitsAux fuel n [] ++ acc := by
  intro fuel
  induction fuel with
  | zero => intro n acc; simp [natToDigitsAux]
  | succ f ih =>
    intro n acc
    rw [natToDigitsAux_succ, natToDigitsAux_succ]
    by_cases hn : n < 10
    · simp [hn]
    · simp only [hn, if_false]
      rw [ih (n / 10) [digitChar (n % 10)], ih (n / 10) (digitChar (n % 10) :: acc)]
      simp

theorem natDigits_ge10 (n : Nat) (h : 10 ≤ n) :
    natToDigitsAux (n + 1) n [] =
      natToDigitsAux (n / 10 + 1) (n / 10) [] ++ [digitChar (n % 10)] := by
  have h1 : ¬ n < 10 := by omega
  have hd : n / 10 < n := Nat.div_lt_self (by omega) (by omega)
  rw [natToDigitsAux_succ]
  simp only [h1, if_false]
  rw [natToDigitsAux_append n (n / 10) [digitChar (n % 10)]]
  rw [natToDigitsAux_fuelIrrel n (n / 10 + 1) (n / 10) [] (by omega) (by omega)]

theorem digitChar_range (d : Nat) (h : d ≤ 9) :
    '0' ≤ digitChar d ∧ digitChar d ≤ '9' := by
  interval_cases d <;> simp [digitChar]

theorem digitChar_val (d : Nat) (h : d ≤ 9) : (digitChar d).toNat - 48 = d := by
  interval_cases d <;> simp [digitChar]

theorem parseDigitsAux_append (l₁ l₂ : List Char) (v : Nat) :
    parseDigitsAux (l₁ ++ l₂) v =
      (parseDigitsAux l₁ v).bind (fun w => parseDigitsAux l₂ w) := by
  induction l₁ generalizing v with
  | nil => simp [parseDigitsAux]
  | cons c rest ih =>
    simp only [List.cons_append, parseDigitsAux]
    by_cases hc : '0' ≤ c ∧ c ≤ '9'
    · simp only [hc, if_true]; exact ih _
    · simp [hc]

theorem parseDigitsAux_natDigits (n : Nat) :
    ∀ v, parseDigitsAux (natToDigitsAux (n + 1) n []) v =
      some (v * 10 ^ (natToDigitsAux (n + 1) n []).length + n) := by
  induction n using Nat.strong_induction_on with
  | _ n ih =>
    intro v
    by_cases hn : n < 10
    · have hb : natToDigitsAux (n + 1) n [] = [digitChar n] := by
        simp [natToDigitsAux, hn]
      rw [hb]
      have h9 : n ≤ 9 := by omega
      simp [parseDigitsAux, digitChar_range n h9, digitChar_val n h9]
    · have h10 : 10 ≤ n := by omega
      have hd : n / 10 < n := Nat.div_lt_self (by omega) (by omega)
      rw [natDigits_ge10 n h10, parseDigitsAux_append]
      rw [ih (n / 10) hd v]
      have h9 : n % 10 ≤ 9 := by omega
      simp only [Option.some_bind, parseDigitsAux, digitChar_range (n % 10) h9,
        and_self, if_true, digitChar_val (n % 10) h9, List.length_append,
        List.length_cons, List.length_nil, Nat.zero_add]
      congr 1
      rw [pow_succ]
      have hmul : (v * 10 ^ (natToDigitsAux (n / 10 + 1) (n / 10) []).length
            + n / 10) * 10 + n % 10
          = v * (10 ^ (natToDigitsAux (n / 10 + 1) (n / 10) []).length * 10)
            + ((n / 10) * 10 + n % 10) := by ring
      rw [hmul]
      congr 1
      omega

theorem natDigits_ne_nil (n : Nat) : natToDigitsAux (n + 1) n [] ≠ [] := by
  by_cases hn : n < 10
  · simp [natToDigitsAux, hn]
  · rw [natDigits_ge10 n (by omega)]; simp

theorem natDigits_head_pos (n : Nat) (h : 1 ≤ n) :
    ∃ c rest, natToDigitsAux (n + 1) n [] = c :: rest ∧ '1' ≤ c ∧ c ≤ '9' := by
  induction n using Nat.strong_induction_on with
  | _ n ih =>
    by_cases hn : n < 10
    · refine ⟨digitChar n, [], by simp [natToDigitsAux, hn], ?_⟩
      interval_cases n <;> simp [digitChar]
    · have h10 : 10 ≤ n := by omega
      have hd : n / 10 < n := Nat.div_lt_self (by omega) (by omega)
      have h1 : 1 ≤ n / 10 := by
        have := Nat.div_le_div_right (c := 10) h10
        simpa using this
      obtain ⟨c, rest, heq, hc1, hc9⟩ := ih (n / 10) hd h1
      exact ⟨c, rest ++ [digitChar (n % 10)],
        by rw [natDigits_ge10 n h10, heq]; simp, hc1, hc9⟩

theorem natToString_data (n : Nat) :
    (natToString n).data = natToDigitsAux (n + 1) n [] := rfl

theorem atoi_natToString (n : Nat) : atoi (natToString n) = some (n : Int) := by
  by_cases h0 : n = 0
  · subst h0; decide
  · obtain ⟨c, rest, heq, hc1, hc9⟩ := natDigits_head_pos n (by omega)
    have hplus : c ≠ '+' := by
      intro hc; rw [hc] at hc1; revert hc1; decide
    have hminus : c ≠ '-' := by
      intro hc; rw [hc] at hc1; revert hc1; decide
    have hdig : '0' ≤ c ∧ c ≤ '9' :=
      ⟨le_trans (by decide) hc1, hc9⟩
    have hparse := parseDigitsAux_natDigits n 0
    rw [heq] at hparse
    simp only [Nat.zero_mul, Nat.zero_add] at hparse
    simp only [atoi, natToString_data, heq, hplus, if_false, hminus,
      parseDigits, hparse]
    simp

theorem redisParseInt_natToString (n : Nat) (h : 1 ≤ n) :
    redisParseInt (natToString n) = some (n : Int) := by
  obtain ⟨c, rest, heq, hc1, hc9⟩ := natDigits_head_pos n (by omega)
  have hminus : c ≠ '-' := by
    intro hc; rw [hc] at hc1; revert hc1; decide
  have hzero : ¬ (c = '0' ∧ rest = []) := by
    rintro ⟨hc, -⟩; rw [hc] at hc1; revert hc1; decide
  have hparse := parseDigitsAux_natDigits n 0
  rw [heq] at hparse
  simp only [Nat.zero_mul, Nat.zero_add] at hparse
  have hdig : '0' ≤ c ∧ c ≤ '9' := ⟨le_trans (by decide) hc1, hc9⟩
  have hstep : parseDigitsAux (c :: rest) 0 = parseDigitsAux rest (c.toNat - 48) := by
    simp [parseDigitsAux, hdig]
  simp only [redisParseInt, natToString_data, heq, hminus, if_false, hzero,
    parseNoLeadZero, hc1, hc9, and_self, if_true, ← hstep, hparse]
  simp

theorem intToString_natCast (n : Nat) : intToString (n : Int) = natToString n := by
  simp [intToString]

/-! ### Association-list lemmas for the store model -/

theorem alookup_setField_self (r : HashRecord) (f v : String) :
    alookup f (setField r f v) = some v := by
  induction r with
  | nil => simp [setField, alookup]
  | cons p rest ih =>
    obtain ⟨g, w⟩ := p
    by_cases hg : g = f
    · simp [setField, hg, alookup]
    · simp [setField, hg, alookup, ih]

theorem alookup_setField_other (r : HashRecord) (f g v : String)
    (h : g ≠ f) : alookup f (setField r g v) = alookup f r := by
  induction r with
  | nil => simp [setField, alookup, h]
  | cons p rest ih =>
    obtain ⟨g', w⟩ := p
    by_cases hg : g' = g
    · subst hg; simp [setField, alookup, h, ih]
    · by_cases hf : g' = f
      · subst hf; simp [setField, hg, alookup]
      · simp [setField, hg, alookup, hf, ih]

theorem alookup_storeSet_self (st : Store) (key : String)
    (upd : List (String × String)) :
    alookup key (storeSet st key upd) =
      some (setFields (hgetall st key) upd) := by
  induction st with
  | nil => simp [storeSet, alookup, hgetall]
  | cons p rest ih =>
    obtain ⟨k, r⟩ := p
    by_cases hk : k = key
    · subst hk; simp [storeSet, alookup, hgetall]
    · simp [storeSet, hk, alookup, ih, hgetall]

theorem hgetall_storeSet_self (st : Store) (key : String)
    (upd : List (String × String)) :
    hgetall (storeSet st key upd) key = setFields (hgetall st key) upd := by
  simp [hgetall, alookup_storeSet_self]

theorem alookup_sub_profileFields (r : HashRecord) (u : UserData) :
    alookup "sub" (setFields r (profileFields u)) = some u.Sub := by
  simp only [profileFields, setFields, List.foldl]
  rw [alookup_setField_other _ _ _ _ (by decide),
      alookup_setField_other _ _ _ _ (by decide),
      alookup_setField_other _ _ _ _ (by decide),
      alookup_setField_other _ _ _ _ (by decide),
      alookup_setField_self]

theorem except_toOption_eq_some {ε α : Type} (e : Except ε α) (a : α) :
    e.toOption = some a ↔ e = .ok a := by
  cases e <;> simp [Except.toOption]

/-! ### Behaviour of one increment call -/

/-- One fault-free `incrementScore` call on a subject with no record:
HINCRBY creates the hash holding only `score = "1"`, the store-only
re-read yields a profile with empty strings elsewhere. -/
theorem incr_fresh_step (readAvail : String → Bool) (st : Store)
    (sub : String) (hsub : sub ≠ "")
    (hread : readAvail ("user:" ++ sub) = true)
    (habs : alookup ("user:" ++ sub) st = none) :
    incrementScore true readAvail st sub =
      ⟨.ok ((1 : Int), ⟨"", "", "", "", (1 : Int)⟩),
       storeSet st ("user:" ++ sub) [("score", intToString 1)], 0⟩ := by
  have hg : hgetall st ("user:" ++ sub) = [] := by simp [hgetall, habs]
  have hscore : alookup "score" (hgetall st ("user:" ++ sub)) = none := by
    rw [hg]; rfl
  have hinc : hincrby st ("user:" ++ sub) "score" 1 =
      .ok ((1 : Int), storeSet st ("user:" ++ sub) [("score", intToString 1)]) := by
    simp only [hincrby, hscore]
  have hg' : hgetall (storeSet st ("user:" ++ sub) [("score", intToString 1)])
      ("user:" ++ sub) = [("score", intToString 1)] := by
    rw [hgetall_storeSet_self, hg]; rfl
  have hatoi : atoi (intToString 1) = some 1 := by decide
  have hre : getUserDataFromRedis readAvail
      (storeSet st ("user:" ++ sub) [("score", intToString 1)]) sub =
      .ok ⟨"", "", "", "", 1⟩ := by
    simp [getUserDataFromRedis, hread, hg', alookup, hatoi]
  simp [incrementScore, if_neg hsub, hinc, hre]

/-- One fault-free `incrementScore` call on a record holding only
`score = k` (`k ≥ 1`): HINCRBY parses, bumps to `k + 1`, and the
re-read returns the bumped score with empty strings elsewhere. -/
theorem incr_bump_step (readAvail : String → Bool) (st : Store)
    (sub : String) (k : Nat) (hsub : sub ≠ "") (hk : 1 ≤ k)
    (hread : readAvail ("user:" ++ sub) = true)
    (hrec : alookup ("user:" ++ sub) st =
      some [("score", intToString (k : Int))]) :
    incrementScore true readAvail st sub =
      ⟨.ok ((k : Int) + 1, ⟨"", "", "", "", (k : Int) + 1⟩),
       storeSet st ("user:" ++ sub)
         [("score", intToString ((k : Int) + 1))], 0⟩ := by
  have hg : hgetall st ("user:" ++ sub) = [("score", intToString (k : Int))] := by
    simp [hgetall, hrec]
  have hscore : alookup "score" (hgetall st ("user:" ++ sub)) =
      some (intToString (k : Int)) := by
    rw [hg]; rfl
  have hparse : redisParseInt (intToString (k : Int)) = some (k : Int) := by
    rw [intToString_natCast]; exact redisParseInt_natToString k hk
  have hcast : (k : Int) + 1 = ((k + 1 : Nat) : Int) := by push_cast; ring
  have hinc : hincrby st ("user:" ++ sub) "score" 1 =
      .ok ((k : Int) + 1, storeSet st ("user:" ++ sub)
        [("score", intToString ((k : Int) + 1))]) := by
    simp only [hincrby, hscore, hparse]
  have hg' : hgetall (storeSet st ("user:" ++ sub)
        [("score", intToString ((k : Int) + 1))]) ("user:" ++ sub)
      = [("score", intToString ((k : Int) + 1))] := by
    rw [hgetall_storeSet_self, hg]; rfl
  have hatoi : atoi (intToString ((k : Int) + 1)) = some ((k : Int) + 1) := by
    rw [hcast, intToString_natCast]; exact atoi_natToString (k + 1)
  have hre : getUserDataFromRedis readAvail
      (storeSet st ("user:" ++ sub) [("score", intToString ((k : Int) + 1))])
      sub = .ok ⟨"", "", "", "", (k : Int) + 1⟩ := by
    simp [getUserDataFromRedis, hread, hg', alookup, hatoi]
  simp [incrementScore, if_neg hsub, hinc, hre]

/-- Record shape after a fresh or bumped increment. -/
theorem incr_written_record (st : Store) (key : String) (s : String) :
    alookup key (storeSet st key [("score", s)]) =
      some (setField (hgetall st key) "score" s) := by
  rw [alookup_storeSet_self]; rfl

/-! ### Claim C1 -/

/-- C1: when the store record for `sub` is missing or its `score` does
not parse (any `getUserDataFromRedis` error), `getUserData` consults
the Identity Provider exactly once; on provider success it writes the
fetched profile's fields back with HMSET and returns the fetched
profile, and a failure of that store write is surfaced as
"Failed to save user data" even though the provider data was
obtained. -/
theorem C1_miss_fetches_provider_and_populates
    (readAvail : String → Bool) (writeOk : Bool)
    (provider : String → Option UserData) (st : Store) (sub : String)
    (e : RedisErr) (hsub : sub ≠ "")
    (hmiss : getUserDataFromRedis readAvail st sub = .error e) :
    (getUserData readAvail writeOk provider st sub).providerCalls = 1 ∧
    ∀ u, provider sub = some u →
      (writeOk = true →
        getUserData readAvail writeOk provider st sub =
          ⟨.ok u, storeSet st ("user:" ++ sub) (profileFields u), 1⟩) ∧
      (writeOk = false →
        getUserData readAvail writeOk provider st sub =
          ⟨.serverError "Failed to save user data", st, 1⟩) := by
  constructor
  · cases h : provider sub with
    | none => simp [getUserData, if_neg hsub, hmiss, h]
    | some u =>
      by_cases hw : writeOk <;> simp [getUserData, if_neg hsub, hmiss, h, hw]
  · intro u hu
    refine ⟨fun hw => ?_, fun hw => ?_⟩ <;>
      simp [getUserData, if_neg hsub, hmiss, hu, hw]

/-- Witness for C1 at a concrete empty store and provider `provW1`. -/
theorem C1_miss_fetches_provider_and_populates_witness :
    getUserData allReadsOk true provW1 [] "abc" =
      ⟨.ok uW1, storeSet [] ("user:" ++ "abc") (profileFields uW1), 1⟩ :=
  ((C1_miss_fetches_provider_and_populates allReadsOk true provW1 [] "abc"
      RedisErr.scoreMissing (by decide) rfl).2 uW1 rfl).1 rfl

/-! ### Claim C2 -/

/-- C2: when the store record exists and its `score` parses,
`getUserData` returns the profile assembled from the store's fields,
leaves the store unchanged and never calls the provider; hence any
number of repeated calls performs zero provider calls in total. -/
theorem C2_hit_returns_store_profile_no_provider
    (readAvail : String → Bool) (writeOk : Bool)
    (provider : String → Option UserData) (st : Store) (sub : String)
    (u : UserData) (hsub : sub ≠ "")
    (hhit : getUserDataFromRedis readAvail st sub = .ok u) :
    getUserData readAvail writeOk provider st sub = ⟨.ok u, st, 0⟩ ∧
    ∀ n, getUserDataRepeat readAvail writeOk provider sub n st = (st, 0) := by
  have h1 : getUserData readAvail writeOk provider st sub = ⟨.ok u, st, 0⟩ := by
    simp [getUserData, if_neg hsub, hhit]
  refine ⟨h1, fun n => ?_⟩
  induction n with
  | zero => rfl
  | succ n ih => simp [getUserDataRepeat, h1, ih]

/-- Witness for C2 at a populated store record. -/
theorem C2_hit_returns_store_profile_no_provider_witness :
    getUserData allReadsOk true provW1 stW2 "bob" =
      ⟨.ok ⟨"bob", "", "", "", 4⟩, stW2, 0⟩ ∧
    getUserDataRepeat allReadsOk true provW1 "bob" 3 stW2 = (stW2, 0) :=
  ⟨(C2_hit_returns_store_profile_no_provider allReadsOk true provW1 stW2
      "bob" ⟨"bob", "", "", "", 4⟩ (by decide) rfl).1,
   (C2_hit_returns_store_profile_no_provider allReadsOk true provW1 stW2
      "bob" ⟨"bob", "", "", "", 4⟩ (by decide) rfl).2 3⟩

/-! ### Claim C4 (corrected) -/

/-- C4 counterexample: with the record for `abc` present and
well-formed but the store transport down, the handler does *not*
surface a server error without consulting the provider — it consults
the provider (one call) and returns the provider profile. -/
theorem C4_counterexample_transport_error_consults_provider :
    (getUserData noReads true provC4 stC4 "abc").providerCalls = 1 ∧
    (getUserData noReads true provC4 stC4 "abc").result =
      .ok ⟨"abc", "", "", "", 7⟩ := by
  constructor <;> rfl

/-- C4 (amended): a `StoreUnavailable` transport error on the store
read is treated exactly like NotFound/Malformed: the handler falls
through to the provider fetch-and-populate path (one provider call);
only a provider failure or a store-write failure then produces the
server error. -/
theorem C4_amended_transport_error_falls_through
    (readAvail : String → Bool) (writeOk : Bool)
    (provider : String → Option UserData) (st : Store) (sub : String)
    (hsub : sub ≠ "") (hdown : readAvail ("user:" ++ sub) = false) :
    (getUserData readAvail writeOk provider st sub).providerCalls = 1 ∧
    (provider sub = none →
      getUserData readAvail writeOk provider st sub =
        ⟨.serverError "Failed to fetch user data", st, 1⟩) ∧
    ∀ u, provider sub = some u →
      (writeOk = true →
        getUserData readAvail writeOk provider st sub =
          ⟨.ok u, storeSet st ("user:" ++ sub) (profileFields u), 1⟩) ∧
      (writeOk = false →
        getUserData readAvail writeOk provider st sub =
          ⟨.serverError "Failed to save user data", st, 1⟩) := by
  have hmiss : getUserDataFromRedis readAvail st sub = .error .transportFail := by
    simp [getUserDataFromRedis, hdown]
  refine ⟨?_, fun hn => ?_, fun u hu => ⟨fun hw => ?_, fun hw => ?_⟩⟩
  · cases h : provider sub with
    | none => simp [getUserData, if_neg hsub, hmiss, h]
    | some u =>
      by_cases hw : writeOk <;> simp [getUserData, if_neg hsub, hmiss, h, hw]
  · simp [getUserData, if_neg hsub, hmiss, hn]
  · simp [getUserData, if_neg hsub, hmiss, hu, hw]
  · simp [getUserData, if_neg hsub, hmiss, hu, hw]

/-- Witness for the amended C4: transport down, provider also failing
yields the generic fetch error after one provider call. -/
theorem C4_amended_transport_error_falls_through_witness :
    getUserData noReads true provNone [] "abc" =
      ⟨.serverError "Failed to fetch user data", [], 1⟩ :=
  (C4_amended_transport_error_falls_through noReads true provNone [] "abc"
      (by decide) rfl).2.1 rfl

/-! ### Claim C6 -/

/-- C6: with the key enumeration succeeding, `getUsers` never fails:
it returns exactly the profiles of the enumerated `user:*` keys whose
store read succeeds (failed or malformed keys are skipped), and in
particular the store holding one record with a non-numeric `score`
yields the empty list, not an error. -/
theorem C6_listProfiles_skips_failed_reads
    (readAvail : String → Bool) (st : Store) :
    (∃ l, getUsers true readAvail st = .ok l ∧
      ∀ u, u ∈ l ↔ ∃ key ∈ userKeys st,
        getUserDataFromRedis readAvail st (subOfKey key) = .ok u) ∧
    getUsers true allReadsOk stBadScore = .ok [] := by
  constructor
  · refine ⟨(userKeys st).filterMap
      (fun key => (getUserDataFromRedis readAvail st (subOfKey key)).toOption),
      by simp [getUsers], fun u => ?_⟩
    rw [List.mem_filterMap]
    constructor
    · rintro ⟨key, hk, hu⟩
      exact ⟨key, hk, (except_toOption_eq_some _ _).1 hu⟩
    · rintro ⟨key, hk, hu⟩
      exact ⟨key, hk, (except_toOption_eq_some _ _).2 hu⟩
  · rfl

/-! ### Claim C8 -/

/-- C8: `incrementScore` on a subject with no store record creates the
hash holding only the `score` field (value `"1"`), re-reads the store
only (zero provider calls by construction), and returns
`newScore = 1` with a profile whose score is 1 and whose other fields
are all the empty string. -/
theorem C8_increment_fresh_creates_score_only
    (readAvail : String → Bool) (st : Store) (sub : String)
    (hsub : sub ≠ "") (hread : readAvail ("user:" ++ sub) = true)
    (habs : alookup ("user:" ++ sub) st = none) :
    incrementScore true readAvail st sub =
      ⟨.ok ((1 : Int), ⟨"", "", "", "", (1 : Int)⟩),
       storeSet st ("user:" ++ sub) [("score", intToString 1)], 0⟩ ∧
    (incrementScore true readAvail st sub).providerCalls = 0 ∧
    alookup ("user:" ++ sub) (incrementScore true readAvail st sub).store =
      some [("score", "1")] := by
  have h := incr_fresh_step readAvail st sub hsub hread habs
  have hg : hgetall st ("user:" ++ sub) = [] := by simp [hgetall, habs]
  refine ⟨h, by rw [h], ?_⟩
  rw [h]
  show alookup _ (storeSet st _ _) = _
  rw [alookup_storeSet_self, hg]
  rfl

/-- Witness for C8 on the empty store. -/
theorem C8_increment_fresh_creates_score_only_witness :
    incrementScore true allReadsOk [] "new" =
      ⟨.ok ((1 : Int), ⟨"", "", "", "", (1 : Int)⟩),
       storeSet [] ("user:" ++ "new") [("score", intToString 1)], 0⟩ ∧
    (incrementScore true allReadsOk [] "new").providerCalls = 0 ∧
    alookup ("user:" ++ "new") (incrementScore true allReadsOk [] "new").store =
      some [("score", "1")] :=
  C8_increment_fresh_creates_score_only allReadsOk [] "new" (by decide) rfl rfl

/-! ### Claim C9 (corrected) -/

/-- C9 counterexample: the write-back stores under `user:abc` a hash
whose `sub` field is the provider-returned `"other"`, not the key
suffix `"abc"`; and `incrementScore` on a fresh subject creates a
record with no `sub` field at all. -/
theorem C9_counterexample_sub_field_mismatch :
    alookup "sub" (hgetall (getUserData allReadsOk true provMismatch [] "abc").store
      ("user:" ++ "abc")) = some "other" ∧
    "other" ≠ "abc" ∧
    alookup "sub" (hgetall (incrementScore true allReadsOk [] "xyz").store
      ("user:" ++ "xyz")) = none := by
  refine ⟨rfl, by decide, rfl⟩

/-- C9 (amended): the write-back performed by `getUserData` stores the
record under the key `"user:" ++ sub`, and the `sub` field stored
inside that hash equals the *provider-returned* `Sub`; in particular
it equals the key suffix whenever the provider echoes the requested
subject.  (`incrementScore`'s write creates only the `score` field.) -/
theorem C9_amended_writeback_stores_provider_sub
    (readAvail : String → Bool) (provider : String → Option UserData)
    (st : Store) (sub : String) (u : UserData) (e : RedisErr)
    (hsub : sub ≠ "")
    (hmiss : getUserDataFromRedis readAvail st sub = .error e)
    (hu : provider sub = some u) :
    (∃ r, alookup ("user:" ++ sub)
      (getUserData readAvail true provider st sub).store = some r) ∧
    alookup "sub" (hgetall (getUserData readAvail true provider st sub).store
      ("user:" ++ sub)) = some u.Sub ∧
    (u.Sub = sub →
      alookup "sub" (hgetall (getUserData readAvail true provider st sub).store
        ("user:" ++ sub)) = some sub) := by
  have h : getUserData readAvail true provider st sub =
      ⟨.ok u, storeSet st ("user:" ++ sub) (profileFields u), 1⟩ := by
    simp [getUserData, if_neg hsub, hmiss, hu]
  rw [h]
  refine ⟨⟨_, alookup_storeSet_self st _ _⟩, ?_, ?_⟩
  · rw [hgetall_storeSet_self]
    exact alookup_sub_profileFields _ u
  · intro hsame
    rw [hgetall_storeSet_self, alookup_sub_profileFields, hsame]

/-- Witness for the amended C9 with a provider echoing the subject. -/
theorem C9_amended_writeback_stores_provider_sub_witness :
    alookup "sub" (hgetall (getUserData allReadsOk true provW1 [] "abc").store
      ("user:" ++ "abc")) = some "abc" :=
  (C9_amended_writeback_stores_provider_sub allReadsOk provW1 [] "abc" uW1
      RedisErr.scoreMissing (by decide) rfl rfl).2.2 rfl

/-! ### Claim C10 -/

/-- C10: if the record for `sub` exists with a `score` field the store
cannot parse as an integer, `incrementScore` surfaces
"Server error" (the HINCRBY is rejected) and the store is completely
unchanged. -/
theorem C10_increment_malformed_score_rejected
    (readAvail : String → Bool) (st : Store) (sub v : String)
    (hsub : sub ≠ "")
    (hv : alookup "score" (hgetall st ("user:" ++ sub)) = some v)
    (hbad : redisParseInt v = none) :
    incrementScore true readAvail st sub =
      ⟨.serverError "Server error", st, 0⟩ := by
  have hinc : hincrby st ("user:" ++ sub) "score" 1 = .error () := by
    simp only [hincrby, hv, hbad]
  simp [incrementScore, if_neg hsub, hinc]

/-- Witness for C10 at a record holding `score = "x"`. -/
theorem C10_increment_malformed_score_rejected_witness :
    incrementScore true allReadsOk stBadScore "bad" =
      ⟨.serverError "Server error", stBadScore, 0⟩ :=
  C10_increment_malformed_score_rejected allReadsOk stBadScore "bad" "x"
    (by decide) rfl (by decide)

/-! ### Claim C7 -/

/-- Sequential fault-free increments starting from a record holding
only `score = k` (`k ≥ 1`): the `(n+1)`-th further call returns
`k + n + 1`. -/
theorem incrNTimes_bump (sub : String) (hsub : sub ≠ "") :
    ∀ (n k : Nat) (st : Store), 1 ≤ k →
      alookup ("user:" ++ sub) st = some [("score", intToString (k : Int))] →
      ∃ st', incrNTimes sub n st =
        ⟨.ok ((k : Int) + (n : Int) + 1,
          ⟨"", "", "", "", (k : Int) + (n : Int) + 1⟩), st', 0⟩ := by
  intro n
  induction n with
  | zero =>
    intro k st hk hrec
    have h := incr_bump_step allReadsOk st sub k hsub hk rfl hrec
    refine ⟨storeSet st ("user:" ++ sub)
      [("score", intToString ((k : Int) + 1))], ?_⟩
    rw [show incrNTimes sub 0 st =
      incrementScore true allReadsOk st sub from rfl, h]
    simp
  | succ n ih =>
    intro k st hk hrec
    have h := incr_bump_step allReadsOk st sub k hsub hk rfl hrec
    have hcast : (k : Int) + 1 = ((k + 1 : Nat) : Int) := by push_cast; ring
    have hrec' : alookup ("user:" ++ sub)
        (incrementScore true allReadsOk st sub).store =
        some [("score", intToString ((k + 1 : Nat) : Int))] := by
      rw [h]
      show alookup _ (storeSet st _ _) = _
      rw [incr_written_record]
      have hg : hgetall st ("user:" ++ sub) =
          [("score", intToString (k : Int))] := by simp [hgetall, hrec]
      rw [hg, hcast]
      rfl
    obtain ⟨st', hst⟩ := ih (k + 1) _ (by omega) hrec'
    refine ⟨st', ?_⟩
    show incrNTimes sub n (incrementScore true allReadsOk st sub).store = _
    rw [hst]
    have : ((k + 1 : Nat) : Int) + (n : Int) + 1 =
        (k : Int) + ((n + 1 : Nat) : Int) + 1 := by push_cast; ring
    rw [this]

/-- C7: starting from a store holding no record for `sub`, the `N`-th
of `N` sequential fault-free `incrementScore` calls returns
`newScore = N` (and a profile whose score is `N`). -/
theorem C7_nth_increment_returns_n
    (N : Nat) (hN : 1 ≤ N) (sub : String) (hsub : sub ≠ "") (st : Store)
    (habs : alookup ("user:" ++ sub) st = none) :
    (incrNTimes sub (N - 1) st).result =
      .ok ((N : Int), ⟨"", "", "", "", (N : Int)⟩) := by
  have hfirst := incr_fresh_step allReadsOk st sub hsub rfl habs
  have hg : hgetall st ("user:" ++ sub) = [] := by simp [hgetall, habs]
  match N, hN with
  | 1, _ =>
    show (incrNTimes sub 0 st).result = _
    rw [show incrNTimes sub 0 st = incrementScore true allReadsOk st sub from rfl,
      hfirst]
    norm_num
  | (m + 2), _ =>
    show (incrNTimes sub (m + 1) st).result = _
    have hrec1 : alookup ("user:" ++ sub)
        (incrementScore true allReadsOk st sub).store =
        some [("score", intToString ((1 : Nat) : Int))] := by
      rw [hfirst]
      show alookup _ (storeSet st _ _) = _
      rw [incr_written_record, hg]
      rfl
    obtain ⟨st', hst⟩ := incrNTimes_bump sub hsub m 1 _ (le_refl 1) hrec1
    rw [show incrNTimes sub (m + 1) st =
      incrNTimes sub m (incrementScore true allReadsOk st sub).store from rfl,
      hst]
    have : ((1 : Nat) : Int) + (m : Int) + 1 = ((m + 2 : Nat) : Int) := by
      push_cast; ring
    rw [this]

/-- Witness for C7 at `N = 3` on the empty store. -/
theorem C7_nth_increment_returns_n_witness :
    (incrNTimes "n" 2 []).result =
      .ok (((3 : Nat) : Int), ⟨"", "", "", "", ((3 : Nat) : Int)⟩) :=
  C7_nth_increment_returns_n 3 (by decide) "n" (by decide) [] rfl

/-! ### Claim C3 (corrected) -/

/-- `msort` permutes its input (`sort.Slice`'s contract, part 1). -/
theorem msort_perm (l : List UserScore) : (msort l).Perm l :=
  List.mergeSort_perm l _

/-- `msort` sorts non-increasingly by score (`sort.Slice`'s contract,
part 2). -/
theorem msort_sorted (l : List UserScore) :
    (msort l).Pairwise (fun x y => y.score ≤ x.score) := by
  have h := @List.sorted_mergeSort UserScore
    (fun x y : UserScore => decide (y.score ≤ x.score))
    (fun a b c hab hbc => by
      rw [decide_eq_true_iff] at *
      exact le_trans hbc hab)
    (fun a b => by
      rcases le_total b.score a.score with h | h <;>
        simp [decide_eq_true_iff, h])
    l
  exact h.imp (fun hab => by rwa [decide_eq_true_iff] at hab)

/-- C3 counterexample: a population of one `user:*` record whose score
does not parse: `topScores` returns the empty sequence, of length `0`,
whereas `min(limit, population) = min(10, 1) = 1`. -/
theorem C3_counterexample_malformed_entry_shrinks_result :
    getTopScores true allReadsOk stBadScore = .ok [] ∧
    (userKeys stBadScore).length = 1 ∧
    ¬ (([] : List UserScore).length = min 10 (userKeys stBadScore).length) := by
  refine ⟨rfl, rfl, by decide⟩

/-- C3 (amended): for every store population and any sorting function
meeting `sort.Slice`'s documented contract for the descending-score
comparator (it permutes its input and orders it non-increasingly by
score), `topScores` succeeds with a sequence sorted non-increasing by
score whose length is `min(10, v)` where `v` counts the *successfully
read* entries (malformed or unreadable keys are skipped, so `v` can be
less than the population); the result consists of score-largest
entries: every omitted valid entry scores no higher than every
returned one. -/
theorem C3_amended_topScores_sorted_top10_of_valid
    (sortFn : List UserScore → List UserScore)
    (hperm : ∀ l, (sortFn l).Perm l)
    (hsorted : ∀ l, (sortFn l).Pairwise (fun x y => y.score ≤ x.score))
    (readAvail : String → Bool) (st : Store) :
    ∃ entries rest,
      getTopScoresWith sortFn true readAvail st = .ok entries ∧
      entries.Pairwise (fun x y => y.score ≤ x.score) ∧
      entries.length = min 10 (collectScores readAvail st).length ∧
      (entries ++ rest).Perm (collectScores readAvail st) ∧
      ∀ x ∈ entries, ∀ y ∈ rest, y.score ≤ x.score := by
  refine ⟨(sortFn (collectScores readAvail st)).take 10,
    (sortFn (collectScores readAvail st)).drop 10, ?_, ?_, ?_, ?_, ?_⟩
  · by_cases hlen : (sortFn (collectScores readAvail st)).length > 10
    · simp [getTopScoresWith, hlen]
    · simp [getTopScoresWith, hlen,
        List.take_of_length_le (Nat.le_of_not_lt hlen)]
  · exact List.Pairwise.sublist (List.take_sublist 10 _)
      (hsorted (collectScores readAvail st))
  · rw [List.length_take, (hperm (collectScores readAvail st)).length_eq]
  · rw [List.take_append_drop]
    exact hperm (collectScores readAvail st)
  · intro x hx y hy
    have h := hsorted (collectScores readAvail st)
    rw [← List.take_append_drop 10 (sortFn (collectScores readAvail st)),
      List.pairwise_append] at h
    exact h.2.2 x hx y hy

/-- Witness for the amended C3: the contract hypotheses hold of the
stable reference sort, instantiated on the populated store `stW2`. -/
theorem C3_amended_topScores_sorted_top10_of_valid_witness :
    ∃ entries rest,
      getTopScoresWith msort true allReadsOk stW2 = .ok entries ∧
      entries.Pairwise (fun x y => y.score ≤ x.score) ∧
      entries.length = min 10 (collectScores allReadsOk stW2).length ∧
      (entries ++ rest).Perm (collectScores allReadsOk stW2) ∧
      ∀ x ∈ entries, ∀ y ∈ rest, y.score ≤ x.score :=
  C3_amended_topScores_sorted_top10_of_valid msort msort_perm msort_sorted
    allReadsOk stW2

/-! ### Claim C5 (corrected) -/

/-- One-step unfolding of the `pdqsort_func` loop (checked against the
definition by `rfl`). -/
theorem pdqsortGo_succ {α : Type} (lt : α → α → Bool) (fuel : Nat)
    (arr : List α) (a b limit : Nat) (wasBalanced wasPartitioned : Bool) :
    pdqsortGo lt (fuel + 1) arr a b limit wasBalanced wasPartitioned =
      (let length := b - a
       if length ≤ 12 then insertionSortIn lt arr a b
       else if limit = 0 then heapSortIn lt arr a b
       else
         let (arr, limit) :=
           if ¬ wasBalanced then (breakPatternsIn arr a b, limit - 1)
           else (arr, limit)
         let (pivot, hint) := choosePivotIn lt arr a b
         let (arr, pivot, hint) :=
           if hint = SortedHint.decreasing then
             (reverseRangeIn arr a b, (b - 1) - (pivot - a),
              SortedHint.increasing)
           else (arr, pivot, hint)
         let (arr, sortedNow) :=
           if wasBalanced ∧ wasPartitioned ∧ hint = SortedHint.increasing then
             earlyInsertionSortIn lt arr a b
           else (arr, false)
         if sortedNow then arr
         else if a > 0 ∧ ¬ lessAt lt arr (a - 1) pivot then
           let (arr, mid) := partitionEqualIn lt arr a b pivot
           pdqsortGo lt fuel arr mid b limit wasBalanced wasPartitioned
         else
           let (arr, mid, alreadyPartitioned) := partitionIn lt arr a b pivot
           let wasPartitioned := alreadyPartitioned
           let leftLen := mid - a
           let rightLen := b - mid
           let balanceThreshold := length / 8
           let wasBalanced := min leftLen rightLen ≥ balanceThreshold
           if leftLen < rightLen then
             let arr := pdqsortGo lt fuel arr a mid limit true true
             pdqsortGo lt fuel arr (mid + 1) b limit wasBalanced wasPartitioned
           else
             let arr := pdqsortGo lt fuel arr (mid + 1) b limit true true
             pdqsortGo lt fuel arr a mid limit wasBalanced wasPartitioned) :=
  rfl

/-- The sort input read off `stC5`. -/
theorem collectScores_stC5 : collectScores allReadsOk stC5 = inC5 := by
  decide

theorem choosePivot_inC5 :
    choosePivotIn scoreGT inC5 0 13 = (6, SortedHint.increasing) := by decide

theorem early_inC5 :
    earlyInsertionSortIn scoreGT inC5 0 13 = (inC5, false) := by decide

theorem partition_inC5 :
    partitionIn scoreGT inC5 0 13 6 = (midC5, 5, true) := by decide

theorem insertLeft_midC5 :
    insertionSortIn scoreGT midC5 0 5 = midC5 := by decide

theorem insertRight_midC5 :
    insertionSortIn scoreGT midC5 6 13 = outC5 := by decide

theorem pdq_left_midC5 :
    pdqsortGo scoreGT 14 midC5 0 5 4 true true = midC5 := by decide

theorem pdq_right_midC5 :
    pdqsortGo scoreGT 14 midC5 6 13 4 true true = outC5 := by decide

theorem pdq_inC5 :
    pdqsortGo scoreGT 15 inC5 0 13 4 true true = outC5 := by
  rw [show (15 : Nat) = 14 + 1 from rfl, pdqsortGo_succ]
  simp [choosePivot_inC5, early_inC5, partition_inC5, pdq_left_midC5,
    pdq_right_midC5]

/-- The `sort.Slice` model on the `stC5` entries. -/
theorem goSortSlice_inC5 : goSortSlice scoreGT inC5 = outC5 := by
  have hlen : inC5.length = 13 := by decide
  rw [show goSortSlice scoreGT inC5 =
    pdqsortGo scoreGT (inC5.length + 2) inC5 0 inC5.length
      (bitsLen inC5.length) true true from rfl, hlen]
  rw [show bitsLen 13 = 4 from by decide]
  exact pdq_inC5

/-- The full handler output on `stC5`. -/
theorem getTopScores_stC5 :
    getTopScores true allReadsOk stC5 =
      .ok [entC5 "f" 9, entC5 "b" 9, entC5 "c" 8, entC5 "d" 7, entC5 "e" 6,
           entC5 "g" 5, entC5 "a" 5, entC5 "h" 4, entC5 "j" 3, entC5 "i" 2] := by
  show getTopScoresWith (goSortSlice scoreGT) true allReadsOk stC5 = _
  simp only [getTopScoresWith]
  rw [collectScores_stC5, goSortSlice_inC5]
  decide

/-- C5 counterexample: on the thirteen-record store `stC5` the
handler's output is *not* tie-stable: the score-9 entry of `user:f`
precedes that of `user:b` although the key enumeration reads `b`
before `f` (likewise `g` before `a` at score 5).  The first conjunct
pins the entire computed output of the `sort.Slice` model. -/
theorem C5_counterexample_tie_order_differs_from_enumeration :
    getTopScores true allReadsOk stC5 =
      .ok [entC5 "f" 9, entC5 "b" 9, entC5 "c" 8, entC5 "d" 7, entC5 "e" 6,
           entC5 "g" 5, entC5 "a" 5, entC5 "h" 4, entC5 "j" 3, entC5 "i" 2] ∧
    ¬ (∀ x y : UserScore,
        [x, y].Sublist
          [entC5 "f" 9, entC5 "b" 9, entC5 "c" 8, entC5 "d" 7, entC5 "e" 6,
           entC5 "g" 5, entC5 "a" 5, entC5 "h" 4, entC5 "j" 3, entC5 "i" 2] →
        x.score = y.score →
        [x, y].Sublist (collectScores allReadsOk stC5)) := by
  refine ⟨getTopScores_stC5, fun hstable => ?_⟩
  have h := hstable (entC5 "f" 9) (entC5 "b" 9) (by decide) (by decide)
  rw [collectScores_stC5] at h
  revert h
  decide

/-- C5 (amended): `topScores` orders entries non-increasingly by
score, but the sort is not stable: there is a store population on
which two equal-score entries appear in the opposite of their
enumeration order while the output is still correctly sorted by
score. -/
theorem C5_amended_descending_but_not_stable :
    ∃ st : Store, ∃ entries : List UserScore,
      getTopScores true allReadsOk st = .ok entries ∧
      entries.Pairwise (fun x y => y.score ≤ x.score) ∧
      ∃ x y, x.score = y.score ∧ x ≠ y ∧ [x, y].Sublist entries ∧
        [y, x].Sublist (collectScores allReadsOk st) := by
  refine ⟨stC5,
    [entC5 "f" 9, entC5 "b" 9, entC5 "c" 8, entC5 "d" 7, entC5 "e" 6,
     entC5 "g" 5, entC5 "a" 5, entC5 "h" 4, entC5 "j" 3, entC5 "i" 2],
    getTopScores_stC5, by decide, entC5 "f" 9, entC5 "b" 9, by decide,
    by decide, by decide, ?_⟩
  rw [collectScores_stC5]
  decide

end GoCat
